import Mathlib

/-!
# Verification of the nix-scope build dashboard (src/src.rs)

Shallow embedding of the program's pure logic.  External OS facilities
(process-table queries, `/proc` environment reads, the temp-directory search
pipeline, file reads) are passed in as oracle functions `… → Option String`,
where `none` models the corresponding I/O call failing (`Err` / file
unreadable / command not spawnable) and `some s` models success with output
`s`.  Rust string operations are re-implemented over `String.data` with
structurally recursive list functions so that every definition evaluates
inside the kernel.
-/

set_option autoImplicit false

namespace NixScope

/-- Rust `str::split(c)`: split a character list at every occurrence of `c`;
always returns at least one (possibly empty) segment. -/
def splitListOn (c : Char) : List Char → List (List Char)
  | [] => [[]]
  | x :: xs =>
    if x = c then [] :: splitListOn c xs
    else
      match splitListOn c xs with
      | [] => [[x]]
      | y :: ys => (x :: y) :: ys

/-- Rust `str::split(c)` on a `String`. -/
def splitOnCharS (c : Char) (s : String) : List String :=
  (splitListOn c s.data).map String.mk

/-- Remove one trailing carriage return, as Rust `lines()` does per line. -/
def stripTrailingCR (l : List Char) : List Char :=
  match l.getLast? with
  | some '\r' => l.dropLast
  | _ => l

/-- Rust `str::lines()`: split on newline, drop a final empty segment
(trailing newline), strip one trailing CR from each line. -/
def rustLines (s : String) : List String :=
  let segs := splitListOn '\n' s.data
  let segs :=
    match segs.getLast? with
    | some [] => segs.dropLast
    | _ => segs
  segs.map (fun l => String.mk (stripTrailingCR l))

/-- Accumulator-based splitter for `split_whitespace`; the first argument is
the current (reversed) field. -/
def splitWsAux : List Char → List Char → List (List Char)
  | acc, [] => if acc.isEmpty then [] else [acc.reverse]
  | acc, x :: xs =>
    if x.isWhitespace then
      if acc.isEmpty then splitWsAux [] xs
      else acc.reverse :: splitWsAux [] xs
    else splitWsAux (x :: acc) xs

/-- Rust `str::split_whitespace()` (whitespace taken as the ASCII whitespace
characters recognised by `Char.isWhitespace`; `ps` output only contains
spaces). Empty fields are never produced. -/
def splitWhitespaceS (s : String) : List String :=
  (splitWsAux [] s.data).map String.mk

/-- Rust `str::starts_with(p)`. -/
def startsWithS (s p : String) : Bool :=
  p.data.isPrefixOf s.data

/-- Rust `str::strip_prefix(p)`. -/
def stripPrefixS (s p : String) : Option String :=
  if startsWithS s p then some (String.mk (s.data.drop p.data.length)) else none

/-- Rust `str::parse::<i32>()`: optional sign, non-empty ASCII digit run,
result within the `i32` range. -/
def parseI32 (s : String) : Option Int :=
  let sd : Int × List Char :=
    match s.data with
    | '+' :: rest => (1, rest)
    | '-' :: rest => (-1, rest)
    | l => (1, l)
  if sd.2.isEmpty then none
  else if sd.2.all Char.isDigit then
    let n : Nat := sd.2.foldl (fun a c => a * 10 + (c.toNat - 48)) 0
    let v : Int := sd.1 * n
    if -2147483648 ≤ v ∧ v ≤ 2147483647 then some v else none
  else none

/-- `Vec<String>::join(",")`. -/
def joinComma : List String → String
  | [] => ""
  | [u] => u
  | u :: us => u ++ "," ++ joinComma us

/-! ## Output-path resolver (`get_build_dir`, `get_out_from_env_vars`,
`get_out_path`) -/

/-- `get_build_dir` from src.rs.  `findCmd user` is the stdout of
`sh -c "find -L /tmp -maxdepth 1 -user <user> -exec stat … | sort -n | tail -n1"`,
`none` when the command cannot be spawned (the `io::Result` error).  On
success the code takes the last stdout line (or `""`) and the text after the
last `:` in it. -/
def get_build_dir (findCmd : String → Option String) (user : String) : Option String :=
  (findCmd user).map fun stdout =>
    let last_line := ((rustLines stdout).getLast?).getD ""
    ((splitOnCharS ':' last_line).getLast?).getD ""

/-- `get_out_from_env_vars` from src.rs: read `<build_dir>/env-vars`, find the
first line starting with `declare -x out=`, take the text between the first
pair of double quotes. -/
def get_out_from_env_vars (readFile : String → Option String) (build_dir : String) :
    Option String :=
  (readFile (build_dir ++ "/env-vars")).bind fun env_vars =>
    ((rustLines env_vars).find? (fun line => startsWithS line "declare -x out=")).bind
      fun line => (splitOnCharS '"' line).get? 1

/-- Tier 1 of `get_out_path`: read `/proc/<pid>/environ` (oracle
`readEnviron`), split on NUL, find the first entry starting with `out=`;
succeed only if its value is non-empty. -/
def out_env_var (readEnviron : Int → Option String) (pid : Int) : Option String :=
  (readEnviron pid).bind fun env_content =>
    ((splitOnCharS '\x00' env_content).find? (fun v => startsWithS v "out=")).bind
      fun out_var =>
        match stripPrefixS out_var "out=" with
        | some out_path => if out_path = "" then none else some out_path
        | none => none

/-- `get_out_path` from src.rs: Tier 1 via the process environment, otherwise
the temp-directory search (with `"(unknown)"` substituted only when that
command itself fails) refined by the `env-vars` extraction. -/
def get_out_path (readEnviron : Int → Option String)
    (findCmd readFile : String → Option String) (user : String) (pid : Int) : String :=
  match out_env_var readEnviron pid with
  | some out_path => out_path
  | none =>
    let build_dir := (get_build_dir findCmd user).getD "(unknown)"
    (get_out_from_env_vars readFile build_dir).getD build_dir

/-! ## Process sampler (`get_processes`, `build_users`) -/

/-- One line of `ps -o user=,pid=` output: at least two whitespace-separated
fields, the second parsed as an `i32`; anything else is skipped. -/
def parse_ps_line (line : String) : Option (String × Int) :=
  match splitWhitespaceS line with
  | u :: pidStr :: _ => (parseI32 pidStr).map fun p => (u, p)
  | _ => none

/-- `map.entry(user).or_insert_with(Vec::new).push(pid)` on an association
list: append the pid to the entry for `user`, creating it at the end if
absent. -/
def insertPid : List (String × List Int) → String → Int → List (String × List Int)
  | [], u, p => [(u, [p])]
  | e :: rest, u, p =>
    if e.1 = u then (e.1, e.2 ++ [p]) :: rest
    else e :: insertPid rest u p

/-- The fold in `get_processes` grouping (user, pid) pairs by user,
preserving discovery order within each group. -/
def groupPids (pairs : List (String × Int)) : List (String × List Int) :=
  pairs.foldl (fun m up => insertPid m up.1 up.2) []

/-- Loop body of `get_processes`: skip empty pid lists, resolve the output
path from the first pid, and model `assert!(!path.is_empty())` as `none`
(a panic aborts the whole computation). -/
def insertProcess (readEnviron : Int → Option String)
    (findCmd readFile : String → Option String)
    (processes : List (String × String × List Int)) (e : String × List Int) :
    Option (List (String × String × List Int)) :=
  match e.2 with
  | [] => some processes
  | p :: _ =>
    let path := get_out_path readEnviron findCmd readFile e.1 p
    if path = "" then none
    else some (processes ++ [(e.1, path, e.2)])

/-- `get_processes` from src.rs.  `psQuery arg` is the stdout of
`ps -o user=,pid= -u <arg>` where `arg` is the comma-joined deduplicated
build-user list; `none` models the command failing to run, in which case the
`if let Ok(output)` body is skipped and the empty map is returned.
The `HashMap` of the source is modelled as an association list in first-seen
order; `some m` is a normal return, `none` a panic of the assert. -/
def get_processes (psQuery : String → Option String)
    (readEnviron : Int → Option String) (findCmd readFile : String → Option String)
    (build_users : List String) : Option (List (String × String × List Int)) :=
  match psQuery (joinComma build_users.dedup) with
  | none => some []
  | some stdout =>
    let grouped := groupPids ((rustLines stdout).filterMap parse_ps_line)
    grouped.foldlM (insertProcess readEnviron findCmd readFile) []

/-! ## Frame builder (`print_screen`, `per_output_infos`) -/

/-- Rust `format!("{:4}", n)` for a `usize`: decimal digits, left-padded with
spaces to at least four characters. -/
def padNum4 (n : Nat) : String :=
  let s := Nat.repr n
  String.mk (List.replicate (4 - s.data.length) ' ') ++ s

/-- `per_output_infos` from src.rs: the per-account header line and the raw
stdout of `ps -o uid,pid,ppid,stime,time,command -U <user>` (oracle
`psUserQuery`; empty string when the command fails). The pid list is passed
but unused, as in the source. -/
def per_output_infos (psUserQuery : String → Option String) (user : String)
    (_pids : List Int) (path : String) : String × String :=
  (":: (" ++ user ++ ") → " ++ path, (psUserQuery user).getD "")

/-- `print_screen` from src.rs, taking the already-sampled process map
(`user ↦ (path, pids)`) explicitly: summary line, one count/path line per
account, blank/divider/blank, then per-account detail sections. -/
def print_screen (psUserQuery : String → Option String)
    (processes : List (String × String × List Int)) : List String :=
  ["Nix build summary (" ++ Nat.repr processes.length ++ " processes)"]
    ++ processes.map (fun e => "    " ++ padNum4 e.2.2.length ++ " → " ++ e.2.1)
    ++ ["", " * * * ", ""]
    ++ processes.flatMap (fun e =>
        let r := per_output_infos psUserQuery e.1 e.2.2 e.2.1
        r.1 :: rustLines r.2)

/-! ## Display loop clipping (`display_screen`) -/

/-- The clipping/padding stage of `display_screen`: keep at most `height`
lines; truncate each kept line to `width` characters and right-pad with
spaces to exactly `width`. -/
def display_lines (width height : Nat) (screen : List String) : List String :=
  (screen.take height).map fun line =>
    let t := String.mk (line.data.take width)
    t ++ String.mk (List.replicate (width - t.data.length) ' ')

/-! ## Spec-side helpers -/

/-- Total process count across all groups: the quantity the spec says the
summary line reports. -/
def totalPidCount (m : List (String × String × List Int)) : Nat :=
  (m.map (fun e => e.2.2.length)).sum

/-- Pid list recorded for user `u` in a grouped association list
(`[]` when absent). -/
def lookupPids : List (String × List Int) → String → List Int
  | [], _ => []
  | e :: rest, u => if e.1 = u then e.2 else lookupPids rest u

/-! ## Helper lemmas about the grouping fold -/

theorem lookupPids_insertPid (m : List (String × List Int)) (u : String) (p : Int)
    (u' : String) :
    lookupPids (insertPid m u p) u' =
      if u = u' then lookupPids m u' ++ [p] else lookupPids m u' := by
  induction m with
  | nil =>
    simp only [insertPid, lookupPids]
    by_cases h : u = u' <;> simp [h]
  | cons e rest ih =>
    simp only [insertPid]
    by_cases he : e.1 = u
    · simp only [if_pos he, lookupPids]
      by_cases hu : u = u'
      · simp [he, hu]
      · simp [he, hu]
    · simp only [if_neg he, lookupPids]
      by_cases hd : e.1 = u'
      · have hu : ¬u = u' := fun h => he (hd.trans h.symm)
        simp [hd, hu]
      · simp [hd, ih]

theorem lookupPids_foldl (l : List (String × Int)) (acc : List (String × List Int))
    (u : String) :
    lookupPids (l.foldl (fun m up => insertPid m up.1 up.2) acc) u =
      lookupPids acc u ++ (l.filter (fun up => up.1 == u)).map Prod.snd := by
  induction l generalizing acc with
  | nil => simp
  | cons up l ih =>
    rw [List.foldl_cons, ih, lookupPids_insertPid]
    by_cases h : up.1 = u
    · simp [h, List.filter_cons]
    · simp [h, List.filter_cons]

theorem lookupPids_groupPids (l : List (String × Int)) (u : String) :
    lookupPids (groupPids l) u = (l.filter (fun up => up.1 == u)).map Prod.snd := by
  have h := lookupPids_foldl l [] u
  simpa [groupPids, lookupPids] using h

theorem keys_insertPid (m : List (String × List Int)) (u : String) (p : Int) :
    (insertPid m u p).map Prod.fst =
      if u ∈ m.map Prod.fst then m.map Prod.fst else m.map Prod.fst ++ [u] := by
  induction m with
  | nil => simp [insertPid]
  | cons e rest ih =>
    simp only [insertPid]
    by_cases he : e.1 = u
    · simp [he]
    · simp only [if_neg he, List.map_cons, ih]
      by_cases hm : u ∈ rest.map Prod.fst
      · simp [hm, Ne.symm he, List.mem_cons]
      · simp [hm, Ne.symm he, List.mem_cons]

theorem nodup_keys_foldl (l : List (String × Int)) :
    ∀ acc : List (String × List Int), (acc.map Prod.fst).Nodup →
      ((l.foldl (fun m up => insertPid m up.1 up.2) acc).map Prod.fst).Nodup := by
  induction l with
  | nil => intro acc h; simpa using h
  | cons up l ih =>
    intro acc h
    rw [List.foldl_cons]
    apply ih
    by_cases hm : up.1 ∈ acc.map Prod.fst
    · rw [keys_insertPid, if_pos hm]; exact h
    · rw [keys_insertPid, if_neg hm]
      simp [List.nodup_append, h, hm]

theorem nodup_keys_groupPids (l : List (String × Int)) :
    ((groupPids l).map Prod.fst).Nodup :=
  nodup_keys_foldl l [] (by simp)

theorem lookupPids_of_mem (m : List (String × List Int)) (u : String) (ps : List Int)
    (hnd : (m.map Prod.fst).Nodup) (h : (u, ps) ∈ m) : lookupPids m u = ps := by
  induction m with
  | nil => simp at h
  | cons e rest ih =>
    rcases List.mem_cons.mp h with h1 | h1
    · cases h1.symm
      simp [lookupPids]
    · have hnd' : e.1 ∉ rest.map Prod.fst ∧ (rest.map Prod.fst).Nodup := by
        rw [List.map_cons] at hnd
        exact List.nodup_cons.mp hnd
      have hne : e.1 ≠ u := by
        intro hequ
        exact hnd'.1 (hequ ▸ List.mem_map_of_mem Prod.fst h1)
      simp only [lookupPids, if_neg hne]
      exact ih hnd'.2 h1

/-- Every entry of a successful `get_processes` fold comes from the initial
accumulator or from a grouped entry with a non-empty pid list, carrying the
path resolved from its first pid. -/
theorem mem_of_foldlM (readEnviron : Int → Option String)
    (findCmd readFile : String → Option String) (grouped : List (String × List Int)) :
    ∀ init m : List (String × String × List Int),
      grouped.foldlM (insertProcess readEnviron findCmd readFile) init = some m →
      ∀ x ∈ m, x ∈ init ∨ ∃ e ∈ grouped, ∃ p rest, e.2 = p :: rest ∧
        x = (e.1, get_out_path readEnviron findCmd readFile e.1 p, e.2) := by
  induction grouped with
  | nil =>
    intro init m h x hx
    simp only [List.foldlM_nil] at h
    cases h
    exact Or.inl hx
  | cons e rest ih =>
    intro init m h x hx
    rw [List.foldlM_cons] at h
    cases hstep : insertProcess readEnviron findCmd readFile init e with
    | none =>
      rw [hstep] at h
      exact Option.noConfusion h
    | some init' =>
      rw [hstep] at h
      have h' : rest.foldlM (insertProcess readEnviron findCmd readFile) init' = some m := h
      rcases ih init' m h' x hx with hx' | ⟨e', he', p, r, h2, h3⟩
      · cases he2 : e.2 with
        | nil =>
          simp only [insertProcess, he2] at hstep
          cases hstep
          exact Or.inl hx'
        | cons p t =>
          simp only [insertProcess, he2] at hstep
          by_cases hp : get_out_path readEnviron findCmd readFile e.1 p = ""
          · simp [hp] at hstep
          · rw [if_neg hp] at hstep
            cases hstep
            rcases List.mem_append.mp hx' with hx'' | hx''
            · exact Or.inl hx''
            · refine Or.inr ⟨e, List.mem_cons_self e rest, p, t, he2, ?_⟩
              rw [← he2] at hx''
              simpa using hx''
      · exact Or.inr ⟨e', List.mem_cons_of_mem e he', p, r, h2, h3⟩

/-! ## Claim theorems -/

/-- C1 counterexample: on the group map with one account owning two pids, the
summary line reports `1 processes` (the number of groups), not the total pid
count `2` that the claim demands. -/
theorem frame_summary_counterexample :
    (print_screen (fun _ => none) [("nixbld1", "/out", [1, 2])]).head? ≠
      some ("Nix build summary (" ++
        Nat.repr (totalPidCount [("nixbld1", "/out", [1, 2])]) ++ " processes)") := by
  decide

/-- C1 (amended): for every group map, the first line of the frame is
`Nix build summary (<n> processes)` where `<n>` is the number of groups
(accounts) in the map, not the sum of the pid-list lengths. -/
theorem frame_summary_line (psUserQuery : String → Option String)
    (m : List (String × String × List Int)) :
    (print_screen psUserQuery m).head? =
      some ("Nix build summary (" ++ Nat.repr m.length ++ " processes)") := rfl

/-- C2 (code bug): when Tier 1 fails, the temp-directory search runs but
produces no output, and no `/env-vars` file is readable, the resolved path is
the empty string, so `assert!(!path.is_empty())` in `get_processes` fires
(modelled as the `none` result): the asserted invariant is violated by the
code's own fallback chain. -/
theorem assert_nonempty_path_fails :
    get_out_path (fun _ => none) (fun _ => some "") (fun _ => none) "nixbld1" 5 = "" ∧
    get_processes (fun _ => some "nixbld1 5") (fun _ => none) (fun _ => some "")
      (fun _ => none) ["nixbld1"] = none := by
  decide

/-- C3 counterexample: with an empty build-account set, `get_processes` still
invokes the `ps` query (with the empty joined user string) and returns
whatever it parses from the output — here a non-empty map — contradicting
"returns an empty map immediately and no process enumeration is attempted". -/
theorem sample_empty_accounts_counterexample :
    get_processes (fun arg => if arg = "" then some "alice 1" else none)
        (fun _ => some "out=/foo") (fun _ => none) (fun _ => none) [] =
      some [("alice", "/foo", [1])] ∧
    (some [("alice", "/foo", [1])] : Option (List (String × String × List Int))) ≠
      some [] := by
  decide

/-- C3 (amended): when the build-account set is empty the process query is
still invoked with the empty user-list argument, and the sampler returns the
empty map exactly when that query fails or its output contains no well-formed
line. -/
theorem sample_empty_accounts (psQuery : String → Option String)
    (readEnviron : Int → Option String) (findCmd readFile : String → Option String) :
    (∀ s, psQuery "" = some s → (rustLines s).filterMap parse_ps_line = []) →
    get_processes psQuery readEnviron findCmd readFile [] = some [] := by
  intro h
  unfold get_processes
  have hj : joinComma (List.dedup ([] : List String)) = "" := rfl
  rw [hj]
  cases hq : psQuery "" with
  | none => rfl
  | some s =>
    show (groupPids ((rustLines s).filterMap parse_ps_line)).foldlM
      (insertProcess readEnviron findCmd readFile) [] = some []
    rw [h s hq]
    rfl

/-- C3 witness: the amended theorem applied to a query whose output has no
well-formed line. -/
theorem sample_empty_accounts_witness :
    get_processes (fun _ => some "x y z") (fun _ => none) (fun _ => none)
      (fun _ => none) [] = some [] :=
  sample_empty_accounts _ _ _ _ (fun s hs => by cases hs; decide)

/-- C4 counterexample: Tier 1 fails, the temp-directory search runs and finds
nothing (empty stdout), no `/env-vars` file is readable — and the resolver
returns the empty string, not the `"(unknown)"` placeholder the claim
demands. -/
theorem resolver_no_dir_counterexample :
    get_out_path (fun _ => none) (fun _ => some "") (fun _ => none) "nixbld7" 7 = "" ∧
    ("" : String) ≠ "(unknown)" := by
  decide

/-- C4 (amended): when Tier 1 yields nothing and the search command runs but
lists no directory, the resolver derives the empty build dir and returns the
extraction from `/env-vars` or the empty string; the `"(unknown)"`
placeholder (or its extraction) is produced only when the search command
itself fails to run. -/
theorem resolver_no_dir (readEnviron : Int → Option String)
    (findCmd readFile : String → Option String) (user : String) (pid : Int) :
    (out_env_var readEnviron pid = none → ∀ s, findCmd user = some s →
      rustLines s = [] →
      get_out_path readEnviron findCmd readFile user pid =
        (get_out_from_env_vars readFile "").getD "") ∧
    (out_env_var readEnviron pid = none → findCmd user = none →
      get_out_path readEnviron findCmd readFile user pid =
        (get_out_from_env_vars readFile "(unknown)").getD "(unknown)") := by
  constructor
  · intro h1 s h2 h3
    have hbd : get_build_dir findCmd user = some "" := by
      have hb1 : get_build_dir findCmd user =
          some ((splitOnCharS ':' (((rustLines s).getLast?).getD "")).getLast?.getD "") := by
        unfold get_build_dir
        rw [h2]
        rfl
      rw [hb1, h3]
      rfl
    simp only [get_out_path, h1, hbd]
    rfl
  · intro h1 h2
    simp only [get_out_path, h1]
    unfold get_build_dir
    rw [h2]
    rfl

/-- C4 witness: the first branch of the amended theorem at concrete
oracles. -/
theorem resolver_no_dir_witness :
    get_out_path (fun _ => none) (fun _ => some "") (fun _ => none) "nixbld3" 9 =
      (get_out_from_env_vars (fun _ => none) "").getD "" :=
  (resolver_no_dir (fun _ => none) (fun _ => some "") (fun _ => none) "nixbld3" 9).1
    (by decide) "" rfl (by decide)

/-- C5 counterexample: the environment `out=\x00out=/foo` contains the
non-empty variable `out=/foo`, yet the resolver skips it (the first `out=`
entry has an empty value), consults the temp-directory search, and returns
its result `/tmp/d` — refuting tier (a) as stated. -/
theorem resolver_first_out_counterexample :
    "out=/foo" ∈ splitOnCharS '\x00' "out=\x00out=/foo" ∧
    ("/foo" : String) ≠ "" ∧
    get_out_path (fun _ => some "out=\x00out=/foo") (fun _ => some "9:/tmp/d")
      (fun _ => none) "nixbld2" 3 = "/tmp/d" ∧
    ("/tmp/d" : String) ≠ "/foo" := by
  decide

/-- C5 (amended): the tiers fall through in order, with tier (a) keyed to the
first environment entry beginning with `out=`: (a) if that first entry has a
non-empty value, it is returned with no temp-dir or filesystem access (the
result is independent of those oracles); (b) if Tier 1 yields nothing and the
search parsed a directory `d` whose `env-vars` extraction yields `w`, `w` is
returned; (c) same but with no matching extraction, `d` itself is
returned. -/
theorem resolver_tier_order (readEnviron : Int → Option String) (user : String)
    (pid : Int) :
    (∀ env out_var, readEnviron pid = some env →
      (splitOnCharS '\x00' env).find? (fun v => startsWithS v "out=") = some out_var →
      String.mk (out_var.data.drop 4) ≠ "" →
      ∀ findCmd readFile : String → Option String,
        get_out_path readEnviron findCmd readFile user pid =
          String.mk (out_var.data.drop 4)) ∧
    (∀ findCmd readFile : String → Option String, ∀ d w : String,
      out_env_var readEnviron pid = none → get_build_dir findCmd user = some d →
      get_out_from_env_vars readFile d = some w →
      get_out_path readEnviron findCmd readFile user pid = w) ∧
    (∀ findCmd readFile : String → Option String, ∀ d : String,
      out_env_var readEnviron pid = none → get_build_dir findCmd user = some d →
      get_out_from_env_vars readFile d = none →
      get_out_path readEnviron findCmd readFile user pid = d) := by
  refine ⟨?_, ?_, ?_⟩
  · intro env out_var h1 h2 h3 findCmd readFile
    have hsw : startsWithS out_var "out=" = true := by
      have hfs := List.find?_some h2
      simpa using hfs
    have hstrip : stripPrefixS out_var "out=" = some (String.mk (out_var.data.drop 4)) := by
      unfold stripPrefixS
      rw [if_pos hsw]
      have h4 : "out=".data.length = 4 := rfl
      rw [h4]
    have hx : out_env_var readEnviron pid = some (String.mk (out_var.data.drop 4)) := by
      unfold out_env_var
      rw [h1]
      show ((splitOnCharS '\x00' env).find? (fun v => startsWithS v "out=")).bind
        (fun out_var => match stripPrefixS out_var "out=" with
          | some out_path => if out_path = "" then none else some out_path
          | none => none) = some (String.mk (out_var.data.drop 4))
      rw [h2]
      show (match stripPrefixS out_var "out=" with
        | some out_path => if out_path = "" then none else some out_path
        | none => none) = some (String.mk (out_var.data.drop 4))
      rw [hstrip]
      exact if_neg h3
    simp only [get_out_path, hx]
  · intro findCmd readFile d w h1 h2 h3
    simp only [get_out_path, h1, h2, h3, Option.getD_some]
  · intro findCmd readFile d h1 h2 h3
    simp only [get_out_path, h1, h2, h3, Option.getD_some, Option.getD_none]

/-- C5 witness: tier (a) of the amended theorem at a concrete environment. -/
theorem resolver_tier_order_witness :
    get_out_path (fun _ => some "out=/bar") (fun _ => none) (fun _ => none) "nixbld4" 4 =
      String.mk ("out=/bar".data.drop 4) :=
  (resolver_tier_order (fun _ => some "out=/bar") "nixbld4" 4).1 "out=/bar" "out=/bar"
    rfl (by decide) (by decide) (fun _ => none) (fun _ => none)

/-- C6: a successful `get_processes` result never contains an entry with an
empty pid list. -/
theorem sample_no_empty_pid_list (psQuery : String → Option String)
    (readEnviron : Int → Option String) (findCmd readFile : String → Option String)
    (build_users : List String) (m : List (String × String × List Int)) :
    get_processes psQuery readEnviron findCmd readFile build_users = some m →
    ∀ x ∈ m, x.2.2 ≠ [] := by
  intro h x hx
  unfold get_processes at h
  cases hq : psQuery (joinComma build_users.dedup) with
  | none =>
    rw [hq] at h
    cases h
    simp at hx
  | some stdout =>
    rw [hq] at h
    have h' : (groupPids ((rustLines stdout).filterMap parse_ps_line)).foldlM
        (insertProcess readEnviron findCmd readFile) [] = some m := h
    rcases mem_of_foldlM readEnviron findCmd readFile _ [] m h' x hx with
      hx' | ⟨e, _, p, r, h2, h3⟩
    · simp at hx'
    · rw [h3]
      simp [h2]

/-- C6 witness: the theorem applied to a concrete one-process sample. -/
theorem sample_no_empty_pid_list_witness :
    (("bob", "/o", [2]) : String × String × List Int).2.2 ≠ [] :=
  sample_no_empty_pid_list (fun _ => some "bob 2") (fun _ => some "out=/o")
    (fun _ => none) (fun _ => none) ["bob"] [("bob", "/o", [2])] (by decide)
    ("bob", "/o", [2]) (by decide)

/-- C7: the display stage keeps at most `height` lines (exactly `height` when
the frame is longer), and every emitted line has length exactly `width`
(truncated when longer, right-padded with spaces when shorter). -/
theorem display_clip_pad (width height : Nat) (screen : List String) :
    (display_lines width height screen).length ≤ height ∧
    (height < screen.length → (display_lines width height screen).length = height) ∧
    ∀ l ∈ display_lines width height screen, l.length = width := by
  refine ⟨?_, ?_, ?_⟩
  · simp only [display_lines, List.length_map, List.length_take]
    omega
  · intro h
    simp only [display_lines, List.length_map, List.length_take]
    omega
  · intro l hl
    simp only [display_lines, List.mem_map] at hl
    obtain ⟨line, _, rfl⟩ := hl
    rw [String.length_append]
    show (line.data.take width).length + (List.replicate (width - (line.data.take width).length) ' ').length = width
    rw [List.length_take, List.length_replicate]
    omega

/-- C7 witness: the theorem at the spec's test case, terminal 10×2 and a
five-line frame of varying lengths. -/
theorem display_clip_pad_witness :
    (display_lines 10 2 ["a", "bbbbbbbbbbbbbb", "", "ccc", "dddddddddd"]).length = 2 ∧
    ("a         " : String).length = 10 :=
  ⟨(display_clip_pad 10 2 ["a", "bbbbbbbbbbbbbb", "", "ccc", "dddddddddd"]).2.1
      (by decide),
   (display_clip_pad 10 2 ["a", "bbbbbbbbbbbbbb", "", "ccc", "dddddddddd"]).2.2
      "a         " (by decide)⟩

/-- C8: the frame built from the empty group map is exactly the summary line
`Nix build summary (0 processes)`, a blank line, the divider ` * * * `, and
another blank line. -/
theorem frame_empty_map (psUserQuery : String → Option String) :
    print_screen psUserQuery [] =
      ["Nix build summary (0 processes)", "", " * * * ", ""] := rfl

/-- C9: if the process-table query itself fails to run, `get_processes`
returns the empty map (no panic, no propagated error), and the frame built
from the empty map opens with `Nix build summary (0 processes)`. -/
theorem sample_query_failure (psQuery : String → Option String)
    (readEnviron : Int → Option String) (findCmd readFile : String → Option String)
    (build_users : List String) (psUserQuery : String → Option String) :
    psQuery (joinComma build_users.dedup) = none →
    get_processes psQuery readEnviron findCmd readFile build_users = some [] ∧
    (print_screen psUserQuery []).head? = some "Nix build summary (0 processes)" := by
  intro h
  constructor
  · unfold get_processes
    rw [h]
  · rfl

/-- C9 witness: the theorem with an always-failing query. -/
theorem sample_query_failure_witness :
    get_processes (fun _ => none) (fun _ => none) (fun _ => none) (fun _ => none)
      ["nixbld1"] = some [] ∧
    (print_screen (fun _ => none) []).head? = some "Nix build summary (0 processes)" :=
  sample_query_failure (fun _ => none) (fun _ => none) (fun _ => none) (fun _ => none)
    ["nixbld1"] (fun _ => none) rfl

/-- C10: malformed `ps` output lines (fewer than two whitespace-separated
fields, or a second field that does not parse as an `i32`) are skipped, and
in a successful sample every account's pid list is exactly the pids of the
well-formed lines naming that account, in output-line order. -/
theorem sample_tolerates_malformed (psQuery : String → Option String)
    (readEnviron : Int → Option String) (findCmd readFile : String → Option String)
    (build_users : List String) (m : List (String × String × List Int))
    (line : String) :
    ((splitWhitespaceS line).length < 2 → parse_ps_line line = none) ∧
    (∀ a b rest, splitWhitespaceS line = a :: b :: rest → parseI32 b = none →
      parse_ps_line line = none) ∧
    (get_processes psQuery readEnviron findCmd readFile build_users = some m →
      ∀ u path pids, (u, path, pids) ∈ m →
        ∃ stdout, psQuery (joinComma build_users.dedup) = some stdout ∧
          pids = (((rustLines stdout).filterMap parse_ps_line).filter
            (fun up => up.1 == u)).map Prod.snd) := by
  refine ⟨?_, ?_, ?_⟩
  · intro h
    unfold parse_ps_line
    match hs : splitWhitespaceS line with
    | [] => rfl
    | [a] => rfl
    | a :: b :: rest =>
      rw [hs] at h
      simp at h
      omega
  · intro a b rest hs hb
    unfold parse_ps_line
    rw [hs]
    show (parseI32 b).map (fun p => (a, p)) = none
    rw [hb]
    rfl
  · intro h u path pids hm
    unfold get_processes at h
    cases hq : psQuery (joinComma build_users.dedup) with
    | none =>
      rw [hq] at h
      cases h
      simp at hm
    | some stdout =>
      rw [hq] at h
      have h' : (groupPids ((rustLines stdout).filterMap parse_ps_line)).foldlM
          (insertProcess readEnviron findCmd readFile) [] = some m := h
      rcases mem_of_foldlM readEnviron findCmd readFile _ [] m h' _ hm with
        hx | ⟨e, he, p, r, h2, h3⟩
      · simp at hx
      · simp only [Prod.mk.injEq] at h3
        refine ⟨stdout, rfl, ?_⟩
        have hmem : (e.1, e.2) ∈ groupPids ((rustLines stdout).filterMap parse_ps_line) := by
          simpa using he
        have hl := lookupPids_of_mem _ e.1 e.2
          (nodup_keys_groupPids ((rustLines stdout).filterMap parse_ps_line)) hmem
        rw [h3.1, h3.2.2, ← lookupPids_groupPids, hl]

/-- C10 witness: the skip branches of the theorem at concrete malformed
lines. -/
theorem sample_tolerates_malformed_witness :
    parse_ps_line "xyz" = none ∧ parse_ps_line "alice pid9" = none :=
  ⟨(sample_tolerates_malformed (fun _ => none) (fun _ => none) (fun _ => none)
      (fun _ => none) [] [] "xyz").1 (by decide),
   (sample_tolerates_malformed (fun _ => none) (fun _ => none) (fun _ => none)
      (fun _ => none) [] [] "alice pid9").2.1 "alice" "pid9" [] (by decide) (by decide)⟩

end NixScope
